import Mathlib

/-!
Verification of the FC4SC UCIS coverage-merge tool
(`tools/coverage_merge/merge.py`) against its natural-language specification.

The Python script merges UCIS XML coverage databases.  We give a shallow
embedding of the in-memory document model (the XML elements the script
touches) and of the merge and report functions, translated statement by
statement from the source.  Python exceptions become `Except.error`;
`ElementTree.find` (first match of a path query) becomes `List.find?`;
in-place mutation of the accumulator tree becomes explicit state passing.
Attribute values that the script compares as strings (`from`, `to`) are kept
as `String`; attribute values that the script immediately converts with
`int(...)` (`coverageCount`, `alias`, `index` text, `weight`) are carried as
integers.
-/

namespace MergePy

/-- A `range` element of a `coverpointBin`: `from`/`to` attributes (compared
as raw strings by the script) and the `coverageCount` of its `contents`
child. -/
structure CtRange where
  rfrom : String
  rto : String
  count : Int
deriving DecidableEq

/-- A `coverpointBin` element: `name`, `type`, `alias` attributes and its
`range` children. -/
structure CovBin where
  name : String
  ty : String
  aliasAttr : Int
  ranges : List CtRange
deriving DecidableEq

/-- A `crossBin` element: `name`, `key`, `type` attributes, its `index`
children (as parsed integers, in document order) and the `coverageCount` of
its `contents` child. -/
structure CrossBin where
  name : String
  key : String
  ty : String
  indexes : List Int
  count : Int
deriving DecidableEq

/-- A child element of a `cross` that the script cares about: a `crossExpr`
(text = name of a crossed coverpoint), a `crossBin`, or the `userAttr`
element. -/
inductive CrossChild where
  | crossExpr (txt : String)
  | cbin (b : CrossBin)
  | userAttr
deriving DecidableEq

/-- A `cross` element: `name`, the `weight` attribute of its `options` child
(`none` when the attribute is absent), and its ordered children. -/
structure Cross where
  name : String
  weight : Option Int
  children : List CrossChild
deriving DecidableEq

/-- A `coverpoint` element: `name`, options `weight`, and its
`coverpointBin` children. -/
structure Coverpoint where
  name : String
  weight : Option Int
  bins : List CovBin
deriving DecidableEq

/-- A `cgInstance` element: `name`, options `weight`, its `coverpoint`
children and its `cross` children. -/
structure CgInstance where
  name : String
  weight : Option Int
  coverpoints : List Coverpoint
  crosses : List Cross
deriving DecidableEq

/-- An `instanceCoverages` element together with its `covergroupCoverage`
child: `moduleName` attribute and the `cgInstance` children. -/
structure CovModule where
  moduleName : String
  instances : List CgInstance
deriving DecidableEq

/-- The `UCIS` root element: its `instanceCoverages` children. -/
structure UcisDoc where
  modules : List CovModule
deriving DecidableEq

/-- Is an `Except` value an error? -/
def excIsError : Except String α → Bool
  | .error _ => true
  | .ok _ => false

/-! ## Bin merging (`UCIS_DB_Parser.merge_bin_hits`)

The loop body of `merge_bin_hits`.  For every `range` element of the parsed
(source) bin, the script runs the query `<bin query>/ucis:range` against the
merge tree.  The query carries no attribute filter, so `ElementTree.find`
always returns the *first* `range` child of the accumulator bin, whatever
source range is being processed.  The `from`/`to` attributes are compared as
strings; on success `totalhits` is written both to the bin's `alias`
attribute and to the matched range's `coverageCount`. -/
def merge_bin_hits_go (accBin : CovBin) :
    List CtRange → Except String CovBin
  | [] => .ok accBin
  | rg :: rest =>
    match accBin.ranges with
    | [] => .error "Range not found! Bin contents differ between mergeDBtree and parsed XML!"
    | r0 :: rs =>
      if r0.rfrom == rg.rfrom && r0.rto == rg.rto then
        let totalhits := r0.count + rg.count
        merge_bin_hits_go
          { accBin with
            aliasAttr := totalhits,
            ranges := { r0 with count := totalhits } :: rs } rest
      else .error "Range limits differ between mergeDBtree and parsed XML!"

/-- `merge_bin_hits(bin, binMergeElement, ...)`: fold the bin's source
ranges into the accumulator bin.  After the loop the script logs
`totalhits`; when the source bin has no `range` children the loop never
assigns `totalhits` and the log line raises `UnboundLocalError`, which we
model as an error. -/
def merge_bin_hits (srcBin accBin : CovBin) : Except String CovBin :=
  if srcBin.ranges.isEmpty then
    .error "UnboundLocalError: local variable referenced before assignment"
  else
    merge_bin_hits_go accBin srcBin.ranges

/-! ## Coverpoint-bin level (`UCIS_DB_Parser.parse_coverpoint_bins`) -/

/-- Apply `merge_bin_hits` to the first accumulator bin carrying the source
bin's name (the first match of the attribute-filtered query). -/
def merge_into_first_bin (srcBin : CovBin) :
    List CovBin → Except String (List CovBin)
  | [] => .ok []
  | b :: bs =>
    if b.name == srcBin.name then
      (merge_bin_hits srcBin b).map (· :: bs)
    else
      (merge_into_first_bin srcBin bs).map (b :: ·)

/-- `parse_coverpoint_bins`: for each source bin, merge into the same-named
accumulator bin when one exists, otherwise append the source bin to the
coverpoint. -/
def parse_coverpoint_bins (accBins : List CovBin) :
    List CovBin → Except String (List CovBin)
  | [] => .ok accBins
  | srcBin :: rest => do
    let accBins' ←
      if (accBins.find? (fun b => b.name == srcBin.name)).isSome then
        merge_into_first_bin srcBin accBins
      else
        pure (accBins ++ [srcBin])
    parse_coverpoint_bins accBins' rest

/-! ## Coverpoint level (`UCIS_DB_Parser.parse_coverpoints`) -/

/-- Merge the source coverpoint's bins into the first same-named
accumulator coverpoint. -/
def merge_into_first_cp (srcCp : Coverpoint) :
    List Coverpoint → Except String (List Coverpoint)
  | [] => .ok []
  | c :: cs =>
    if c.name == srcCp.name then
      (parse_coverpoint_bins c.bins srcCp.bins).map (fun bs => { c with bins := bs } :: cs)
    else
      (merge_into_first_cp srcCp cs).map (c :: ·)

/-- `parse_coverpoints`: a source coverpoint with no same-named coverpoint
in the accumulator instance is a fatal error; otherwise its bins are
merged. -/
def parse_coverpoints (acc : CgInstance) :
    List Coverpoint → Except String CgInstance
  | [] => .ok acc
  | cp :: rest =>
    if (acc.coverpoints.find? (fun c => c.name == cp.name)).isSome then
      match merge_into_first_cp cp acc.coverpoints with
      | .error e => .error e
      | .ok cps => parse_coverpoints { acc with coverpoints := cps } rest
    else
      .error "coverpoint not present in the mergeDBtree!"

/-! ## Cross level (`UCIS_DB_Parser.parse_crosses`) -/

/-- Is this cross child a `crossBin` element? -/
def CrossChild.isCBin : CrossChild → Bool
  | .cbin _ => true
  | _ => false

/-- The `crossBin` children of a list of cross children, in order
(`findall`). -/
def crossBinsOfChildren (cs : List CrossChild) : List CrossBin :=
  cs.filterMap fun c => match c with | .cbin b => some b | _ => none

/-- The `crossBin` children of a cross (`findall(cross, 'crossBin')`). -/
def crossBinsOf (c : Cross) : List CrossBin := crossBinsOfChildren c.children

/-- The texts of the `crossExpr` children of a cross. -/
def crossExprsOf (c : Cross) : List String :=
  c.children.filterMap fun ch => match ch with | .crossExpr t => some t | _ => none

/-! Association lists standing for Python `dict`s (which preserve insertion
order).  Assigning to a present key updates it in place; assigning to an
absent key appends it. -/

/-- `d[k]` lookup (first entry with the key). -/
def aGet? [BEq κ] : List (κ × ν) → κ → Option ν
  | [], _ => none
  | p :: m, k => if p.1 == k then some p.2 else aGet? m k

/-- `k in d` for an association list. -/
def aHasKey [BEq κ] (m : List (κ × ν)) (k : κ) : Bool :=
  (aGet? m k).isSome

/-- `d[k] = v`: update the first entry with the key in place when the key is
present, append otherwise.  (The maps built by the script start empty and
are only ever written through this operation, so keys are unique and "first
entry" is "the entry", exactly as in a Python dict.) -/
def aSet [BEq κ] : List (κ × ν) → κ → ν → List (κ × ν)
  | [], k, v => [(k, v)]
  | p :: m, k, v => if p.1 == k then (k, v) :: m else p :: aSet m k v

/-- The keys of an association list, in order. -/
def aKeys (m : List (κ × ν)) : List κ := m.map (·.1)

/-- The `mergeMap` of `parse_crosses`: index tuple → hit count. -/
abbrev BinMap := List (List Int × Int)

/-- First phase of the cross-bin merge: store the accumulator's cross bins
in `mergeMap` (plain dict assignment) and detach them from the tree.  A
*merge-tree* cross bin whose index list is not exactly `numCvps` long
raises `ValueError`. -/
def drain_cross_bins (numCvps : Nat) : BinMap → List CrossBin → Except String BinMap
  | m, [] => .ok m
  | m, cb :: rest =>
    if cb.indexes.length ≠ numCvps then
      .error "Found crossBin of bigger size than the number of coverpoints!"
    else
      drain_cross_bins numCvps (aSet m cb.indexes cb.count) rest

/-- Second phase: fold the parsed document's cross bins into `mergeMap`,
adding the hit count when the tuple is already present and inserting it
otherwise.  No length check is made here. -/
def fold_src_bins : BinMap → List CrossBin → BinMap
  | m, [] => m
  | m, cb :: rest =>
    let m' :=
      if aHasKey m cb.indexes then
        aSet m cb.indexes ((aGet? m cb.indexes).getD 0 + cb.count)
      else
        aSet m cb.indexes cb.count
    fold_src_bins m' rest

/-- Both phases combined: the mapping from which the cross is rebuilt. -/
def cross_merge_map (accCross srcCross : Cross) : Except String BinMap :=
  (drain_cross_bins (crossExprsOf accCross).length []
      (crossBinsOf accCross)).map
    (fun m => fold_src_bins m (crossBinsOf srcCross))

/-- Rebuild one `crossBin` element from a `mergeMap` entry.  The template
string carries `name=""`, `key="0"`, `type="default"`, `numCvps` `index`
children with text `0` and a zero `contents`; the script then overwrites the
first `len(tuple)` index texts, advancing a generator over the `index`
children — a tuple longer than `numCvps` exhausts the generator and raises
`StopIteration`, a shorter one leaves trailing indexes at `0`. -/
def build_cross_bin (numCvps : Nat) (kv : List Int × Int) : Except String CrossBin :=
  if numCvps < kv.1.length then .error "StopIteration"
  else .ok { name := "", key := "0", ty := "default",
             indexes := kv.1 ++ List.replicate (numCvps - kv.1.length) 0,
             count := kv.2 }

/-- Rebuild all `crossBin` elements from `mergeMap`, in insertion order. -/
def rebuild_cross_bins (numCvps : Nat) : BinMap → Except String (List CrossBin)
  | [] => .ok []
  | kv :: rest =>
    match build_cross_bin numCvps kv with
    | .error e => .error e
    | .ok b =>
      match rebuild_cross_bins numCvps rest with
      | .error e => .error e
      | .ok bs => .ok (b :: bs)

/-- Remove the first `userAttr` child (`find` + `remove`); `none` when there
is no such child, in which case `remove(None)` raises `TypeError`. -/
def removeFirstUserAttr : List CrossChild → Option (List CrossChild)
  | [] => none
  | .userAttr :: rest => some rest
  | .crossExpr t :: rest => (removeFirstUserAttr rest).map (.crossExpr t :: ·)
  | .cbin b :: rest => (removeFirstUserAttr rest).map (.cbin b :: ·)

/-- The body of `parse_crosses` for one matched cross.  A source cross with
no `crossBin` child is skipped, leaving the accumulator cross untouched.
Otherwise the accumulator's cross bins are drained into `mergeMap` and
removed, the source bins are folded in, fresh `crossBin` elements are
appended, and the `userAttr` element is moved to the end of the cross. -/
def merge_cross (accCross srcCross : Cross) : Except String Cross :=
  if (crossBinsOf srcCross).isEmpty then .ok accCross
  else
    let numCvps := (crossExprsOf accCross).length
    match drain_cross_bins numCvps [] (crossBinsOf accCross) with
    | .error e => .error e
    | .ok m0 =>
      let m := fold_src_bins m0 (crossBinsOf srcCross)
      match rebuild_cross_bins numCvps m with
      | .error e => .error e
      | .ok newBins =>
        let children1 := accCross.children.filter (fun ch => !ch.isCBin)
          ++ newBins.map CrossChild.cbin
        match removeFirstUserAttr children1 with
        | none => .error "TypeError: Element.remove(None)"
        | some cs => .ok { accCross with children := cs ++ [CrossChild.userAttr] }

/-- Merge the source cross into the first same-named accumulator cross. -/
def merge_into_first_cross (srcCross : Cross) :
    List Cross → Except String (List Cross)
  | [] => .ok []
  | c :: cs =>
    if c.name == srcCross.name then
      (merge_cross c srcCross).map (· :: cs)
    else
      (merge_into_first_cross srcCross cs).map (c :: ·)

/-- `parse_crosses`: a source cross with no same-named cross in the
accumulator instance is a fatal error; otherwise it is merged. -/
def parse_crosses (acc : CgInstance) :
    List Cross → Except String CgInstance
  | [] => .ok acc
  | cr :: rest =>
    if (acc.crosses.find? (fun c => c.name == cr.name)).isSome then
      match merge_into_first_cross cr acc.crosses with
      | .error e => .error e
      | .ok crs => parse_crosses { acc with crosses := crs } rest
    else
      .error "cross not present in the mergeDBtree!"

/-! ## Instance / module / document levels -/

/-- The body of `parse_covergroup_type` for one matched instance:
`parse_coverpoints` then `parse_crosses`. -/
def parse_cg_instance (accInst srcInst : CgInstance) : Except String CgInstance :=
  match parse_coverpoints accInst srcInst.coverpoints with
  | .error e => .error e
  | .ok a => parse_crosses a srcInst.crosses

/-- Merge the source instance into the first same-named accumulator
instance. -/
def merge_into_first_inst (srcInst : CgInstance) :
    List CgInstance → Except String (List CgInstance)
  | [] => .ok []
  | i :: is' =>
    if i.name == srcInst.name then
      (parse_cg_instance i srcInst).map (· :: is')
    else
      (merge_into_first_inst srcInst is').map (i :: ·)

/-- `parse_covergroup_type`: merge matched instances, append new ones. -/
def parse_covergroup_type (accMod : CovModule) :
    List CgInstance → Except String CovModule
  | [] => .ok accMod
  | inst :: rest =>
    if (accMod.instances.find? (fun i => i.name == inst.name)).isSome then
      match merge_into_first_inst inst accMod.instances with
      | .error e => .error e
      | .ok is' => parse_covergroup_type { accMod with instances := is' } rest
    else
      parse_covergroup_type { accMod with instances := accMod.instances ++ [inst] } rest

/-- Merge the source module into the first module with the same
`moduleName`. -/
def merge_into_first_module (srcMod : CovModule) :
    List CovModule → Except String (List CovModule)
  | [] => .ok []
  | m :: ms =>
    if m.moduleName == srcMod.moduleName then
      (parse_covergroup_type m srcMod.instances).map (· :: ms)
    else
      (merge_into_first_module srcMod ms).map (m :: ·)

/-- `parse_xml`: merge matched covergroup types, append new ones. -/
def parse_xml (accDoc : UcisDoc) :
    List CovModule → Except String UcisDoc
  | [] => .ok accDoc
  | md :: rest =>
    if (accDoc.modules.find? (fun m => m.moduleName == md.moduleName)).isSome then
      match merge_into_first_module md accDoc.modules with
      | .error e => .error e
      | .ok ms => parse_xml { modules := ms } rest
    else
      parse_xml { modules := accDoc.modules ++ [md] } rest

/-! ## Association-list lemmas -/

section AssocLemmas

variable {κ : Type u} {ν : Type v} [BEq κ] [LawfulBEq κ] [DecidableEq κ]

theorem aHasKey_iff_mem (m : List (κ × ν)) (k : κ) :
    aHasKey m k = true ↔ k ∈ aKeys m := by
  induction m with
  | nil => simp [aHasKey, aGet?, aKeys]
  | cons p m ih =>
    by_cases h : p.1 = k
    · simp [aHasKey, aGet?, aKeys, h]
    · simp only [aHasKey, aGet?] at ih
      simp [aHasKey, aGet?, aKeys, h, Ne.symm h, ih]

theorem aGet?_eq_none_iff (m : List (κ × ν)) (k : κ) :
    aGet? m k = none ↔ k ∉ aKeys m := by
  induction m with
  | nil => simp [aGet?, aKeys]
  | cons p m ih =>
    by_cases h : p.1 = k
    · simp [aGet?, aKeys, h]
    · simp [aGet?, aKeys, h, ih, Ne.symm h]

theorem aGet?_aSet (m : List (κ × ν)) (k k' : κ) (v : ν) :
    aGet? (aSet m k v) k' = if k' = k then some v else aGet? m k' := by
  induction m with
  | nil =>
    by_cases h : k' = k
    · simp [aSet, aGet?, h]
    · simp [aSet, aGet?, h, Ne.symm h]
  | cons p m ih =>
    by_cases hpk : p.1 = k
    · by_cases hk' : k' = k
      · simp [aSet, aGet?, hpk, hk']
      · have hpk2 : ¬ p.1 = k' := fun h => hk' (h.symm.trans hpk)
        have hk2 : ¬ k = k' := fun h => hk' h.symm
        simp [aSet, aGet?, hpk, hk', hk2, hpk2]
    · by_cases hpk' : p.1 = k'
      · have hk' : ¬ k' = k := fun h => hpk (hpk'.trans h)
        simp [aSet, aGet?, hpk, hpk', hk']
      · simp [aSet, aGet?, hpk, hpk', ih]

theorem aKeys_cons (p : κ × ν) (m : List (κ × ν)) :
    aKeys (p :: m) = p.1 :: aKeys m := rfl

theorem aKeys_aSet_of_mem {m : List (κ × ν)} {k : κ} (v : ν)
    (hmem : k ∈ aKeys m) : aKeys (aSet m k v) = aKeys m := by
  induction m with
  | nil => simp [aKeys] at hmem
  | cons p m ih =>
    by_cases hpk : p.1 = k
    · simp [aSet, aKeys_cons, hpk]
    · have hmem' : k ∈ aKeys m := by
        rcases (by simpa [aKeys_cons] using hmem : k = p.1 ∨ k ∈ aKeys m) with h | h
        · exact absurd h.symm hpk
        · exact h
      simp [aSet, aKeys_cons, hpk, ih hmem']

theorem aKeys_aSet_of_not_mem {m : List (κ × ν)} {k : κ} (v : ν)
    (hmem : k ∉ aKeys m) : aKeys (aSet m k v) = aKeys m ++ [k] := by
  induction m with
  | nil => simp [aSet, aKeys]
  | cons p m ih =>
    have hparts : ¬ k = p.1 ∧ k ∉ aKeys m := by
      rw [aKeys_cons] at hmem
      constructor
      · intro h; exact hmem (by simp [h])
      · intro h; exact hmem (by simp [h])
    by_cases hpk : p.1 = k
    · exact absurd hpk.symm hparts.1
    · simp [aSet, aKeys_cons, hpk, ih hparts.2]

theorem aKeys_nodup_aSet (m : List (κ × ν)) (k : κ) (v : ν)
    (h : (aKeys m).Nodup) : (aKeys (aSet m k v)).Nodup := by
  by_cases hmem : k ∈ aKeys m
  · rw [aKeys_aSet_of_mem v hmem]; exact h
  · rw [aKeys_aSet_of_not_mem v hmem]
    exact List.Nodup.append h (List.nodup_singleton k) (by simpa using hmem)

theorem mem_aKeys_aSet {m : List (κ × ν)} {k t : κ} {v : ν}
    (h : t ∈ aKeys (aSet m k v)) : t ∈ aKeys m ∨ t = k := by
  by_cases hmem : k ∈ aKeys m
  · rw [aKeys_aSet_of_mem v hmem] at h; exact Or.inl h
  · rw [aKeys_aSet_of_not_mem v hmem] at h
    simpa using h

theorem filter_key_eq_nil {m : List (κ × ν)} {t : κ} (h : t ∉ aKeys m) :
    m.filter (fun kv => kv.1 == t) = [] := by
  rw [List.filter_eq_nil_iff]
  intro kv hkv
  simp only [beq_iff_eq]
  intro he
  exact h (he ▸ List.mem_map_of_mem _ hkv)

theorem filter_eq_singleton_of_aGet? {m : List (κ × ν)} {t : κ} {v : ν}
    (hnd : (aKeys m).Nodup) (h : aGet? m t = some v) :
    m.filter (fun kv => kv.1 == t) = [(t, v)] := by
  induction m with
  | nil => simp [aGet?] at h
  | cons p m ih =>
    rw [aKeys] at hnd
    simp only [List.map_cons, List.nodup_cons] at hnd
    by_cases hp : p.1 = t
    · rw [aGet?, if_pos (by simpa using hp)] at h
      have hv : p.2 = v := by simpa using h
      have hnotin : t ∉ aKeys m := hp ▸ hnd.1
      have hpair : p = (t, v) := by
        rcases p with ⟨a, b⟩
        simp only at hp hv
        rw [hp, hv]
      rw [List.filter_cons, if_pos (by simpa using hp),
        filter_key_eq_nil hnotin, hpair]
    · rw [aGet?, if_neg (by simpa using hp)] at h
      rw [List.filter_cons, if_neg (by simpa using hp)]
      exact ih hnd.2 h

end AssocLemmas

/-! ## Lemmas about the cross-bin merge phases -/

theorem drain_cross_bins_lens {n : Nat} :
    ∀ {bins : List CrossBin} {m0 m : BinMap},
      drain_cross_bins n m0 bins = .ok m → ∀ cb ∈ bins, cb.indexes.length = n := by
  intro bins
  induction bins with
  | nil => intro m0 m h cb hcb; simp at hcb
  | cons cb rest ih =>
    intro m0 m h cb' hcb'
    rw [drain_cross_bins] at h
    by_cases hlen : cb.indexes.length = n
    · rw [if_neg (by simp [hlen])] at h
      rcases List.mem_cons.mp hcb' with rfl | hmem
      · exact hlen
      · exact ih h cb' hmem
    · rw [if_pos (by simp [hlen])] at h
      exact absurd h (by simp)

theorem drain_cross_bins_bad_len_errors {n : Nat} :
    ∀ {bins : List CrossBin}, (∃ cb ∈ bins, cb.indexes.length ≠ n) →
      ∀ m0, excIsError (drain_cross_bins n m0 bins) = true := by
  intro bins
  induction bins with
  | nil => rintro ⟨cb, hcb, _⟩ m0; simp at hcb
  | cons cb rest ih =>
    rintro ⟨cb', hcb', hbad⟩ m0
    rw [drain_cross_bins]
    by_cases hlen : cb.indexes.length = n
    · rw [if_neg (by simp [hlen])]
      rcases List.mem_cons.mp hcb' with rfl | hmem
      · exact absurd hlen hbad
      · exact ih ⟨cb', hmem, hbad⟩ _
    · rw [if_pos (by simp [hlen])]
      rfl

theorem find?_indexes_self {l : List CrossBin}
    (hnd : (l.map (fun b => b.indexes)).Nodup) {a : CrossBin} (ha : a ∈ l) :
    l.find? (fun b => b.indexes == a.indexes) = some a := by
  induction l with
  | nil => simp at ha
  | cons b rest ih =>
    simp only [List.map_cons, List.nodup_cons] at hnd
    rcases List.mem_cons.mp ha with rfl | hmem
    · rw [List.find?_cons_of_pos _ (by simp)]
    · by_cases hb : b.indexes = a.indexes
      · exact absurd (hb ▸ List.mem_map_of_mem (fun b => b.indexes) hmem) hnd.1
      · rw [List.find?_cons_of_neg _ (by simpa using hb)]
        exact ih hnd.2 hmem

theorem find?_indexes_none {l : List CrossBin} {t : List Int}
    (h : ∀ b ∈ l, b.indexes ≠ t) :
    l.find? (fun b => b.indexes == t) = none :=
  List.find?_eq_none.mpr (fun b hb => by simpa using h b hb)

theorem drain_get {n : Nat} :
    ∀ {bins : List CrossBin}, (bins.map (fun b => b.indexes)).Nodup →
    ∀ {m0 m : BinMap}, drain_cross_bins n m0 bins = .ok m →
    ∀ t, aGet? m t =
      ((bins.find? (fun b => b.indexes == t)).map (fun b => b.count)).or (aGet? m0 t) := by
  intro bins
  induction bins with
  | nil =>
    intro _ m0 m h t
    rw [drain_cross_bins] at h
    cases h
    simp
  | cons cb rest ih =>
    intro hnd m0 m h t
    simp only [List.map_cons, List.nodup_cons] at hnd
    rw [drain_cross_bins] at h
    by_cases hlen : cb.indexes.length = n
    · rw [if_neg (by simp [hlen])] at h
      by_cases hbt : cb.indexes = t
      · rw [List.find?_cons_of_pos _ (by simpa using hbt)]
        have hrest : rest.find? (fun b => b.indexes == t) = none :=
          find?_indexes_none (fun b hb he =>
            hnd.1 (by rw [hbt, ← he]; exact List.mem_map_of_mem (fun b => b.indexes) hb))
        have := ih hnd.2 h t
        rw [hrest] at this
        rw [this, aGet?_aSet, if_pos hbt.symm]
        simp
      · rw [List.find?_cons_of_neg _ (by simpa using hbt)]
        have := ih hnd.2 h t
        rw [this, aGet?_aSet, if_neg (fun he => hbt he.symm)]
    · rw [if_pos (by simp [hlen])] at h
      exact absurd h (by simp)

theorem fold_src_get_not_mem :
    ∀ {src : List CrossBin} {m : BinMap} {t : List Int},
      (∀ b ∈ src, b.indexes ≠ t) →
      aGet? (fold_src_bins m src) t = aGet? m t := by
  intro src
  induction src with
  | nil => intro m t _; rfl
  | cons cb rest ih =>
    intro m t h
    rw [fold_src_bins]
    have hne : ¬ t = cb.indexes := fun he => h cb (List.mem_cons_self cb rest) he.symm
    have hstep : ∀ m' : BinMap, aGet? (aSet m' cb.indexes ((aGet? m' cb.indexes).getD 0 + cb.count)) t = aGet? m' t := by
      intro m'; rw [aGet?_aSet, if_neg hne]
    by_cases hk : aHasKey m cb.indexes = true
    · rw [if_pos hk, ih (fun b hb => h b (List.mem_cons_of_mem cb hb)), aGet?_aSet, if_neg hne]
    · rw [if_neg hk, ih (fun b hb => h b (List.mem_cons_of_mem cb hb)), aGet?_aSet, if_neg hne]

theorem fold_src_get_mem :
    ∀ {src : List CrossBin}, (src.map (fun b => b.indexes)).Nodup →
    ∀ {s : CrossBin}, s ∈ src → ∀ (m : BinMap),
      aGet? (fold_src_bins m src) s.indexes =
        some ((aGet? m s.indexes).getD 0 + s.count) := by
  intro src
  induction src with
  | nil => intro _ s hs; simp at hs
  | cons cb rest ih =>
    intro hnd s hs m
    simp only [List.map_cons, List.nodup_cons] at hnd
    rw [fold_src_bins]
    rcases List.mem_cons.mp hs with rfl | hmem
    · have hrest : ∀ b ∈ rest, b.indexes ≠ s.indexes := fun b hb he =>
        hnd.1 (by rw [← he]; exact List.mem_map_of_mem (fun b => b.indexes) hb)
      by_cases hk : aHasKey m s.indexes = true
      · rw [if_pos hk, fold_src_get_not_mem hrest, aGet?_aSet, if_pos rfl]
      · rw [if_neg hk, fold_src_get_not_mem hrest, aGet?_aSet, if_pos rfl]
        have hnone : aGet? m s.indexes = none := by
          rcases hg : aGet? m s.indexes with _ | w
          · rfl
          · rw [aHasKey, hg] at hk; simp at hk
        rw [hnone]
        simp
    · have hne : cb.indexes ≠ s.indexes := fun he =>
        hnd.1 (by rw [he]; exact List.mem_map_of_mem (fun b => b.indexes) hmem)
      have hstep : ∀ (m' : BinMap) (w : Int), aGet? (aSet m' cb.indexes w) s.indexes = aGet? m' s.indexes := by
        intro m' w; rw [aGet?_aSet, if_neg (fun he => hne he.symm)]
      by_cases hk : aHasKey m cb.indexes = true
      · rw [if_pos hk, ih hnd.2 hmem, hstep]
      · rw [if_neg hk, ih hnd.2 hmem, hstep]

theorem drain_keys_nodup {n : Nat} :
    ∀ {bins : List CrossBin} {m0 m : BinMap}, (aKeys m0).Nodup →
      drain_cross_bins n m0 bins = .ok m → (aKeys m).Nodup := by
  intro bins
  induction bins with
  | nil => intro m0 m hnd h; rw [drain_cross_bins] at h; cases h; exact hnd
  | cons cb rest ih =>
    intro m0 m hnd h
    rw [drain_cross_bins] at h
    by_cases hlen : cb.indexes.length = n
    · rw [if_neg (by simp [hlen])] at h
      exact ih (aKeys_nodup_aSet _ _ _ hnd) h
    · rw [if_pos (by simp [hlen])] at h
      exact absurd h (by simp)

theorem fold_src_keys_nodup :
    ∀ {src : List CrossBin} {m : BinMap}, (aKeys m).Nodup →
      (aKeys (fold_src_bins m src)).Nodup := by
  intro src
  induction src with
  | nil => intro m h; exact h
  | cons cb rest ih =>
    intro m h
    rw [fold_src_bins]
    by_cases hk : aHasKey m cb.indexes = true
    · rw [if_pos hk]; exact ih (aKeys_nodup_aSet _ _ _ h)
    · rw [if_neg hk]; exact ih (aKeys_nodup_aSet _ _ _ h)

theorem drain_keys_mem {n : Nat} :
    ∀ {bins : List CrossBin} {m0 m : BinMap}, drain_cross_bins n m0 bins = .ok m →
      ∀ t ∈ aKeys m, t ∈ aKeys m0 ∨ ∃ cb ∈ bins, cb.indexes = t := by
  intro bins
  induction bins with
  | nil => intro m0 m h t ht; rw [drain_cross_bins] at h; cases h; exact Or.inl ht
  | cons cb rest ih =>
    intro m0 m h t ht
    rw [drain_cross_bins] at h
    by_cases hlen : cb.indexes.length = n
    · rw [if_neg (by simp [hlen])] at h
      rcases ih h t ht with hm | ⟨cb', hcb', he⟩
      · rcases mem_aKeys_aSet hm with hm0 | rfl
        · exact Or.inl hm0
        · exact Or.inr ⟨cb, List.mem_cons_self cb rest, rfl⟩
      · exact Or.inr ⟨cb', List.mem_cons_of_mem cb hcb', he⟩
    · rw [if_pos (by simp [hlen])] at h
      exact absurd h (by simp)

theorem fold_src_keys_mem :
    ∀ {src : List CrossBin} {m : BinMap} {t : List Int},
      t ∈ aKeys (fold_src_bins m src) →
      t ∈ aKeys m ∨ ∃ cb ∈ src, cb.indexes = t := by
  intro src
  induction src with
  | nil => intro m t ht; exact Or.inl ht
  | cons cb rest ih =>
    intro m t ht
    rw [fold_src_bins] at ht
    have step : ∀ {m' : BinMap}, t ∈ aKeys (fold_src_bins (aSet m' cb.indexes ((aGet? m' cb.indexes).getD 0 + cb.count)) rest) ∨ True := fun {m'} => Or.inr trivial
    by_cases hk : aHasKey m cb.indexes = true
    · rw [if_pos hk] at ht
      rcases ih ht with hm | ⟨cb', hcb', he⟩
      · rcases mem_aKeys_aSet hm with hm0 | rfl
        · exact Or.inl hm0
        · exact Or.inr ⟨cb, List.mem_cons_self cb rest, rfl⟩
      · exact Or.inr ⟨cb', List.mem_cons_of_mem cb hcb', he⟩
    · rw [if_neg hk] at ht
      rcases ih ht with hm | ⟨cb', hcb', he⟩
      · rcases mem_aKeys_aSet hm with hm0 | rfl
        · exact Or.inl hm0
        · exact Or.inr ⟨cb, List.mem_cons_self cb rest, rfl⟩
      · exact Or.inr ⟨cb', List.mem_cons_of_mem cb hcb', he⟩

theorem rebuild_cross_bins_shape {n : Nat} :
    ∀ {m : BinMap} {bs : List CrossBin}, rebuild_cross_bins n m = .ok bs →
      bs = m.map (fun kv => { name := "", key := "0", ty := "default",
                              indexes := kv.1 ++ List.replicate (n - kv.1.length) 0,
                              count := kv.2 }) := by
  intro m
  induction m with
  | nil => intro bs h; rw [rebuild_cross_bins] at h; cases h; rfl
  | cons kv rest ih =>
    intro bs h
    rw [rebuild_cross_bins, build_cross_bin] at h
    by_cases hlen : n < kv.1.length
    · rw [if_pos hlen] at h
      exact absurd h (by simp)
    · rw [if_neg hlen] at h
      cases hr : rebuild_cross_bins n rest with
      | error e => rw [hr] at h; exact absurd h (by simp)
      | ok bs' =>
        rw [hr] at h
        cases h
        rw [List.map_cons, ih hr]

/-! ## Cross children bookkeeping -/

theorem crossBinsOfChildren_append (l₁ l₂ : List CrossChild) :
    crossBinsOfChildren (l₁ ++ l₂) = crossBinsOfChildren l₁ ++ crossBinsOfChildren l₂ := by
  simp [crossBinsOfChildren]

theorem crossBinsOfChildren_filter_nonbin (l : List CrossChild) :
    crossBinsOfChildren (l.filter fun ch => !ch.isCBin) = [] := by
  induction l with
  | nil => rfl
  | cons c rest ih =>
    cases c with
    | crossExpr t => simpa [crossBinsOfChildren, CrossChild.isCBin, List.filter_cons] using ih
    | cbin b => simpa [crossBinsOfChildren, CrossChild.isCBin, List.filter_cons] using ih
    | userAttr => simpa [crossBinsOfChildren, CrossChild.isCBin, List.filter_cons] using ih

theorem crossBinsOfChildren_map_cbin (bs : List CrossBin) :
    crossBinsOfChildren (bs.map CrossChild.cbin) = bs := by
  induction bs with
  | nil => rfl
  | cons b rest ih => simpa [crossBinsOfChildren] using ih

theorem crossBinsOfChildren_removeFirstUserAttr :
    ∀ {l l' : List CrossChild}, removeFirstUserAttr l = some l' →
      crossBinsOfChildren l' = crossBinsOfChildren l := by
  intro l
  induction l with
  | nil => intro l' h; simp [removeFirstUserAttr] at h
  | cons c rest ih =>
    intro l' h
    cases c with
    | crossExpr t =>
      rw [removeFirstUserAttr] at h
      cases hr : removeFirstUserAttr rest with
      | none => rw [hr] at h; simp at h
      | some r' =>
        rw [hr] at h
        simp at h
        cases h
        simp only [crossBinsOfChildren, List.filterMap_cons]
        rw [← crossBinsOfChildren, ← crossBinsOfChildren, ih hr]
    | cbin b =>
      rw [removeFirstUserAttr] at h
      cases hr : removeFirstUserAttr rest with
      | none => rw [hr] at h; simp at h
      | some r' =>
        rw [hr] at h
        simp at h
        cases h
        simp only [crossBinsOfChildren, List.filterMap_cons]
        rw [← crossBinsOfChildren, ← crossBinsOfChildren, ih hr]
    | userAttr =>
      rw [removeFirstUserAttr] at h
      cases h
      simp [crossBinsOfChildren]

/-- Successful non-trivial cross merge decomposed into its phases: the
drain succeeds, and the cross bins of the result are exactly the rebuilt
bins of the final `mergeMap`. -/
theorem merge_cross_ok_decomp {acc src res : Cross}
    (hne : (crossBinsOf src).isEmpty = false)
    (hok : merge_cross acc src = .ok res) :
    ∃ m0, drain_cross_bins (crossExprsOf acc).length [] (crossBinsOf acc) = .ok m0 ∧
      ∃ bs, rebuild_cross_bins (crossExprsOf acc).length
              (fold_src_bins m0 (crossBinsOf src)) = .ok bs ∧
            crossBinsOf res = bs := by
  rw [merge_cross] at hok
  rw [hne] at hok
  simp only [Bool.false_eq_true, if_false] at hok
  cases hd : drain_cross_bins (crossExprsOf acc).length [] (crossBinsOf acc) with
  | error e => rw [hd] at hok; exact absurd hok (by simp)
  | ok m0 =>
    rw [hd] at hok
    dsimp only at hok
    cases hr : rebuild_cross_bins (crossExprsOf acc).length
        (fold_src_bins m0 (crossBinsOf src)) with
    | error e => rw [hr] at hok; exact absurd hok (by simp)
    | ok bs =>
      rw [hr] at hok
      dsimp only at hok
      cases hu : removeFirstUserAttr
          (acc.children.filter (fun ch => !ch.isCBin) ++ bs.map CrossChild.cbin) with
      | none => rw [hu] at hok; exact absurd hok (by simp)
      | some cs =>
        rw [hu] at hok
        dsimp only at hok
        have hres : res = { acc with children := cs ++ [CrossChild.userAttr] } := by
          cases hok; rfl
        refine ⟨m0, rfl, bs, hr, ?_⟩
        rw [hres]
        show crossBinsOfChildren (cs ++ [CrossChild.userAttr]) = bs
        rw [crossBinsOfChildren_append, crossBinsOfChildren_removeFirstUserAttr hu,
          crossBinsOfChildren_append, crossBinsOfChildren_filter_nonbin,
          crossBinsOfChildren_map_cbin]
        simp [crossBinsOfChildren]

/-- Every key of the final `mergeMap` has the cross's dimensionality,
provided every source tuple does (accumulator tuples are forced to by the
drain). -/
theorem final_map_keys_len {acc src : Cross} {m0 : BinMap}
    (hd : drain_cross_bins (crossExprsOf acc).length [] (crossBinsOf acc) = .ok m0)
    (hlenS : ∀ b ∈ crossBinsOf src, b.indexes.length = (crossExprsOf acc).length) :
    ∀ kv ∈ fold_src_bins m0 (crossBinsOf src), kv.1.length = (crossExprsOf acc).length := by
  intro kv hkv
  have hk : kv.1 ∈ aKeys (fold_src_bins m0 (crossBinsOf src)) :=
    List.mem_map_of_mem _ hkv
  rcases fold_src_keys_mem hk with h | ⟨cb, hcb, he⟩
  · rcases drain_keys_mem hd kv.1 h with h0 | ⟨cb, hcb, he⟩
    · simp [aKeys] at h0
    · exact he ▸ drain_cross_bins_lens hd cb hcb
  · exact he ▸ hlenS cb hcb

/-- Filtering the rebuilt cross bins by an index tuple is filtering the
`mergeMap` by that key, when every key has full length (so that no padding
is applied). -/
theorem filter_indexes_map_build (n : Nat) (t : List Int) :
    ∀ (m : BinMap), (∀ kv ∈ m, kv.1.length = n) →
      ((m.map (fun kv => ({ name := "", key := "0", ty := "default",
                            indexes := kv.1 ++ List.replicate (n - kv.1.length) 0,
                            count := kv.2 } : CrossBin))).filter (fun b => b.indexes == t)) =
        (m.filter (fun kv => kv.1 == t)).map
          (fun kv => { name := "", key := "0", ty := "default",
                       indexes := kv.1, count := kv.2 }) := by
  intro m
  induction m with
  | nil => intro _; rfl
  | cons kv rest ih =>
    intro hlen
    have hl : kv.1.length = n := hlen kv (List.mem_cons_self kv rest)
    have hz : n - kv.1.length = 0 := by rw [hl]; exact Nat.sub_self n
    have hind : kv.1 ++ List.replicate (n - kv.1.length) (0 : Int) = kv.1 := by
      rw [hz]; simp
    rw [List.map_cons, List.filter_cons, List.filter_cons]
    by_cases ht : kv.1 = t
    · rw [if_pos (by simpa [hind] using ht), if_pos (by simpa using ht)]
      rw [List.map_cons, ih (fun p hp => hlen p (List.mem_cons_of_mem kv hp))]
      simp [hind]
    · rw [if_neg (by simpa [hind] using ht), if_neg (by simpa using ht)]
      exact ih (fun p hp => hlen p (List.mem_cons_of_mem kv hp))

/-! ## Concrete documents used as evidence -/

/-- Accumulator bin `lo` of kind `default` with a single range `(0,10)`
holding one hit. -/
def binLoAcc : CovBin := { name := "lo", ty := "default", aliasAttr := 0,
                           ranges := [{ rfrom := "0", rto := "10", count := 1 }] }

/-- Source bin `lo` of kind `illegal` with the same range `(0,10)` holding
two hits. -/
def binLoSrc : CovBin := { name := "lo", ty := "illegal", aliasAttr := 0,
                           ranges := [{ rfrom := "0", rto := "10", count := 2 }] }

/-- A bin with two ranges `(0,1)` and `(2,3)` with 2 and 5 hits. -/
def binTwoRanges : CovBin := { name := "b", ty := "default", aliasAttr := 0,
                               ranges := [{ rfrom := "0", rto := "1", count := 2 },
                                          { rfrom := "2", rto := "3", count := 5 }] }

/-- A document with one module, one instance, one coverpoint holding only
`binTwoRanges`, and no crosses. -/
def docTwoRanges : UcisDoc :=
  { modules := [{ moduleName := "top",
                  instances := [{ name := "inst", weight := some 1,
                                  coverpoints := [{ name := "cp", weight := some 1,
                                                    bins := [binTwoRanges] }],
                                  crosses := [] }] }] }

/-- Accumulator cross `X` over two coverpoints with one well-formed cross
bin `(0,1) ↦ 3`. -/
def accCrossX : Cross :=
  { name := "X", weight := some 1,
    children := [.crossExpr "a", .crossExpr "b",
                 .cbin { name := "", key := "0", ty := "default", indexes := [0, 1], count := 3 },
                 .userAttr] }

/-- Source cross `X` whose only cross bin carries a single `index` child —
one fewer than the cross's two `crossExpr` dimensions. -/
def srcCrossShort : Cross :=
  { name := "X", weight := some 1,
    children := [.crossExpr "a", .crossExpr "b",
                 .cbin { name := "bad", key := "1", ty := "default", indexes := [5], count := 2 },
                 .userAttr] }

/-- C3: the claim says that two same-named bins whose ordered range
boundaries *or kind* differ always raise a fatal structural error.  The
script's own docstring (step 5, note 2) demands exactly that, but
`merge_bin_hits` never compares the `type` attribute: a `default` bin and a
same-named `illegal` bin with identical ranges merge silently, summing the
hits and keeping the accumulator's kind. -/
theorem kind_mismatch_merges_silently :
    merge_bin_hits binLoSrc binLoAcc =
      .ok { name := "lo", ty := "default", aliasAttr := 3,
            ranges := [{ rfrom := "0", rto := "10", count := 3 }] } := rfl

/-- C4: the claim says each source range is summed into the accumulator
range that corresponds to it in declared order.  The range query built by
`merge_bin_hits` has no attribute filter, so every source range is compared
against the *first* accumulator range; merging a two-range bin with an
identical copy of itself dies on the second range instead of summing it. -/
theorem second_range_hits_first_range :
    merge_bin_hits binTwoRanges binTwoRanges =
      .error "Range limits differ between mergeDBtree and parsed XML!" := rfl

/-- C7: the claim says merging any document into an accumulator built from
that same document doubles every hit count.  For a document whose only bin
has two ranges, the self-merge aborts with `ValueError` (every source range
is matched against the accumulator bin's first range), so no doubled counts
are produced. -/
theorem self_merge_two_ranges_fails :
    parse_xml docTwoRanges docTwoRanges.modules =
      .error "Range limits differ between mergeDBtree and parsed XML!" := rfl

/-- C5 counterexample: the claim says a *source* cross bin whose index
tuple is shorter or longer than the cross's dimensionality raises a fatal
structural error before the cross is rebuilt.  The length check in
`parse_crosses` runs only over the *accumulator's* cross bins; a source
cross bin with a one-element tuple in a two-dimensional cross merges
without any error, its missing index silently padded with `0`. -/
theorem short_source_tuple_not_rejected :
    merge_cross accCrossX srcCrossShort =
      .ok { name := "X", weight := some 1,
            children := [.crossExpr "a", .crossExpr "b",
                         .cbin { name := "", key := "0", ty := "default",
                                 indexes := [0, 1], count := 3 },
                         .cbin { name := "", key := "0", ty := "default",
                                 indexes := [5, 0], count := 2 },
                         .userAttr] } := rfl

/-- C9: a source cross with no `crossBin` child is skipped before the
accumulator cross is drained, validated or rebuilt: `merge_cross` returns
the accumulator cross exactly as it was, cross bins, `userAttr` position
and all. -/
theorem empty_source_cross_skipped (accCross srcCross : Cross)
    (h : crossBinsOf srcCross = []) : merge_cross accCross srcCross = .ok accCross := by
  simp [merge_cross, h]

/-- An accumulator cross that would fail every validation if it were ever
drained: its only cross bin has three indexes in a two-dimensional cross,
and its `userAttr` sits in front of the cross bin. -/
def accCrossWeird : Cross :=
  { name := "X", weight := none,
    children := [.crossExpr "a", .crossExpr "b", .userAttr,
                 .cbin { name := "w", key := "0", ty := "default",
                         indexes := [0, 1, 2], count := 7 }] }

/-- A source cross `X` with no cross bins at all. -/
def srcCrossEmpty : Cross :=
  { name := "X", weight := some 1,
    children := [.crossExpr "a", .crossExpr "b", .userAttr] }

/-- Witness for C9: even a malformed accumulator cross is returned
untouched when the source cross has no cross bins. -/
theorem empty_source_cross_skipped_witness :
    merge_cross accCrossWeird srcCrossEmpty = .ok accCrossWeird :=
  empty_source_cross_skipped accCrossWeird srcCrossEmpty rfl
/-! ## Cross-bin merge: main theorems -/

/-- C1: for a cross present in both documents (well-formed: distinct index
tuples on each side and source tuples of the cross's dimensionality), after
a successful merge an index tuple present in both documents yields a single
cross bin in the result whose hit count is the sum of the two hit counts,
and a tuple present only in the source yields a single cross bin carrying
the source hit count unchanged. -/
theorem cross_bin_tuples_sum_or_carry_over
    (acc src res : Cross)
    (hndA : ((crossBinsOf acc).map (fun b => b.indexes)).Nodup)
    (hndS : ((crossBinsOf src).map (fun b => b.indexes)).Nodup)
    (hlenS : ∀ b ∈ crossBinsOf src, b.indexes.length = (crossExprsOf acc).length)
    (hok : merge_cross acc src = .ok res) :
    (∀ a ∈ crossBinsOf acc, ∀ s ∈ crossBinsOf src, a.indexes = s.indexes →
      (crossBinsOf res).filter (fun b => b.indexes == a.indexes) =
        [{ name := "", key := "0", ty := "default", indexes := a.indexes,
           count := a.count + s.count }]) ∧
    (∀ s ∈ crossBinsOf src, (∀ a ∈ crossBinsOf acc, a.indexes ≠ s.indexes) →
      (crossBinsOf res).filter (fun b => b.indexes == s.indexes) =
        [{ name := "", key := "0", ty := "default", indexes := s.indexes,
           count := s.count }]) := by
  constructor
  · intro a ha s hs has
    have hne : (crossBinsOf src).isEmpty = false := by
      cases hcb : crossBinsOf src with
      | nil => rw [hcb] at hs; simp at hs
      | cons x xs => rfl
    obtain ⟨m0, hd, bs, hr, hbs⟩ := merge_cross_ok_decomp hne hok
    have hg0 : aGet? m0 a.indexes = some a.count := by
      have hdg := drain_get hndA hd a.indexes
      rw [find?_indexes_self hndA ha] at hdg
      simpa using hdg
    have hsget : aGet? (fold_src_bins m0 (crossBinsOf src)) s.indexes =
        some ((aGet? m0 s.indexes).getD 0 + s.count) :=
      fold_src_get_mem hndS hs m0
    have hgm : aGet? (fold_src_bins m0 (crossBinsOf src)) a.indexes =
        some (a.count + s.count) := by
      rw [has] at hg0 ⊢
      rw [hsget, hg0]
      rfl
    have hnodup : (aKeys (fold_src_bins m0 (crossBinsOf src))).Nodup :=
      fold_src_keys_nodup (drain_keys_nodup (by simp [aKeys]) hd)
    have hfil : (fold_src_bins m0 (crossBinsOf src)).filter
        (fun kv => kv.1 == a.indexes) = [(a.indexes, a.count + s.count)] :=
      filter_eq_singleton_of_aGet? hnodup hgm
    have hlens : ∀ kv ∈ fold_src_bins m0 (crossBinsOf src),
        kv.1.length = (crossExprsOf acc).length :=
      final_map_keys_len hd hlenS
    rw [hbs, rebuild_cross_bins_shape hr,
      filter_indexes_map_build _ _ _ hlens, hfil]
    rfl
  · intro s hs hnotin
    have hne : (crossBinsOf src).isEmpty = false := by
      cases hcb : crossBinsOf src with
      | nil => rw [hcb] at hs; simp at hs
      | cons x xs => rfl
    obtain ⟨m0, hd, bs, hr, hbs⟩ := merge_cross_ok_decomp hne hok
    have hg0 : aGet? m0 s.indexes = none := by
      have hdg := drain_get hndA hd s.indexes
      rw [find?_indexes_none hnotin] at hdg
      simpa using hdg
    have hsget : aGet? (fold_src_bins m0 (crossBinsOf src)) s.indexes =
        some ((aGet? m0 s.indexes).getD 0 + s.count) :=
      fold_src_get_mem hndS hs m0
    have hgm : aGet? (fold_src_bins m0 (crossBinsOf src)) s.indexes =
        some (0 + s.count) := by
      rw [hsget, hg0]
      rfl
    have hnodup : (aKeys (fold_src_bins m0 (crossBinsOf src))).Nodup :=
      fold_src_keys_nodup (drain_keys_nodup (by simp [aKeys]) hd)
    have hfil : (fold_src_bins m0 (crossBinsOf src)).filter
        (fun kv => kv.1 == s.indexes) = [(s.indexes, 0 + s.count)] :=
      filter_eq_singleton_of_aGet? hnodup hgm
    have hlens : ∀ kv ∈ fold_src_bins m0 (crossBinsOf src),
        kv.1.length = (crossExprsOf acc).length :=
      final_map_keys_len hd hlenS
    rw [hbs, rebuild_cross_bins_shape hr,
      filter_indexes_map_build _ _ _ hlens, hfil]
    simp

/-- Accumulator cross `XY` over two coverpoints with cross bin `(0,1) ↦ 3`
(the worked example of the specification). -/
def accC1 : Cross :=
  { name := "XY", weight := some 1,
    children := [.crossExpr "x", .crossExpr "y",
                 .cbin { name := "", key := "0", ty := "default", indexes := [0, 1], count := 3 },
                 .userAttr] }

/-- Source cross `XY` with cross bins `(0,1) ↦ 5` and `(2,3) ↦ 7`. -/
def srcC1 : Cross :=
  { name := "XY", weight := some 1,
    children := [.crossExpr "x", .crossExpr "y",
                 .cbin { name := "a", key := "0", ty := "default", indexes := [0, 1], count := 5 },
                 .cbin { name := "b", key := "1", ty := "default", indexes := [2, 3], count := 7 },
                 .userAttr] }

/-- The merge of `srcC1` into `accC1`. -/
def resC1 : Cross :=
  { name := "XY", weight := some 1,
    children := [.crossExpr "x", .crossExpr "y",
                 .cbin { name := "", key := "0", ty := "default", indexes := [0, 1], count := 8 },
                 .cbin { name := "", key := "0", ty := "default", indexes := [2, 3], count := 7 },
                 .userAttr] }

/-- Witness for C1: `(0,1) ↦ 3` and `(0,1) ↦ 5` merge to the single cross
bin `(0,1) ↦ 8`, and `(2,3) ↦ 7`, present only in the source, carries over
unchanged. -/
theorem cross_bin_tuples_sum_or_carry_over_witness :
    merge_cross accC1 srcC1 = .ok resC1 ∧
    (crossBinsOf resC1).filter (fun b => b.indexes == [0, 1]) =
      [{ name := "", key := "0", ty := "default", indexes := [0, 1], count := 8 }] ∧
    (crossBinsOf resC1).filter (fun b => b.indexes == [2, 3]) =
      [{ name := "", key := "0", ty := "default", indexes := [2, 3], count := 7 }] := by
  have h := cross_bin_tuples_sum_or_carry_over accC1 srcC1 resC1
    (by decide) (by decide) (by decide) rfl
  refine ⟨rfl, ?_, ?_⟩
  · have h1 := h.1 { name := "", key := "0", ty := "default", indexes := [0, 1], count := 3 }
      (by decide)
      { name := "a", key := "0", ty := "default", indexes := [0, 1], count := 5 }
      (by decide) rfl
    simpa using h1
  · have h2 := h.2 { name := "b", key := "1", ty := "default", indexes := [2, 3], count := 7 }
      (by decide) (by decide)
    simpa using h2

/-- C5 (amended): during a non-trivial cross-bin merge the tuple-length
validation runs over the *accumulator's* cross bins as they are drained:
any accumulator cross bin whose index-tuple length differs from the cross's
declared dimensionality aborts the merge, before the cross is rebuilt.
Source cross bins are not length-checked at that point (see the
counterexample, where a short source tuple merges without error). -/
theorem acc_tuple_length_mismatch_fatal (acc src : Cross)
    (hne : (crossBinsOf src).isEmpty = false)
    (hbad : ∃ cb ∈ crossBinsOf acc, cb.indexes.length ≠ (crossExprsOf acc).length) :
    excIsError (merge_cross acc src) = true := by
  rw [merge_cross, hne]
  simp only [Bool.false_eq_true, if_false]
  have herr := drain_cross_bins_bad_len_errors hbad ([] : BinMap)
  cases hd : drain_cross_bins (crossExprsOf acc).length [] (crossBinsOf acc) with
  | error e => rfl
  | ok m0 => rw [hd] at herr; exact absurd herr (by simp [excIsError])

/-- Witness for the amended C5: an accumulator cross bin with three indexes
in a two-dimensional cross makes the merge fail. -/
theorem acc_tuple_length_mismatch_fatal_witness :
    excIsError (merge_cross accCrossWeird srcCrossShort) = true :=
  acc_tuple_length_mismatch_fatal accCrossWeird srcCrossShort rfl (by decide)

/-- C10: after a cross-bin merge that actually rebuilds the cross, every
cross bin of the rebuilt accumulator cross carries the fixed attributes
`name=""`, `key="0"`, `type="default"`, and the bins are exactly the final
`mergeMap` entries — only the index tuple (padded with zeros up to the
dimensionality) and the merged hit count survive; nothing else from the
original `crossBin` elements is preserved. -/
theorem rebuilt_cross_bins_canonical
    (acc src res : Cross) (mm : BinMap)
    (hne : (crossBinsOf src).isEmpty = false)
    (hok : merge_cross acc src = .ok res)
    (hmm : cross_merge_map acc src = .ok mm) :
    (∀ b ∈ crossBinsOf res, b.name = "" ∧ b.key = "0" ∧ b.ty = "default") ∧
    (crossBinsOf res).map (fun b => (b.indexes, b.count)) =
      mm.map (fun kv =>
        (kv.1 ++ List.replicate ((crossExprsOf acc).length - kv.1.length) 0, kv.2)) := by
  obtain ⟨m0, hd, bs, hr, hbs⟩ := merge_cross_ok_decomp hne hok
  have hmm2 : mm = fold_src_bins m0 (crossBinsOf src) := by
    rw [cross_merge_map, hd] at hmm
    exact (Except.ok.inj hmm).symm
  subst hmm2
  constructor
  · intro b hb
    rw [hbs, rebuild_cross_bins_shape hr] at hb
    obtain ⟨kv, hkv, rfl⟩ := List.mem_map.mp hb
    exact ⟨rfl, rfl, rfl⟩
  · rw [hbs, rebuild_cross_bins_shape hr, List.map_map]
    rfl

/-- Witness for C10: in the merged example cross, the rebuilt bins carry
the fixed attributes and exactly the `mergeMap` tuples and counts; the
source bin names `"a"`/`"b"` and key `"1"` are gone. -/
theorem rebuilt_cross_bins_canonical_witness :
    cross_merge_map accC1 srcC1 = .ok [([0, 1], 8), ([2, 3], 7)] ∧
    ({ name := "", key := "0", ty := "default", indexes := ([0, 1] : List Int),
       count := (8 : Int) } : CrossBin).name = "" ∧
    (crossBinsOf resC1).map (fun b => (b.indexes, b.count)) =
      [([0, 1], 8), ([2, 3], 7)].map (fun kv =>
        (kv.1 ++ List.replicate ((crossExprsOf accC1).length - kv.1.length) 0, kv.2)) := by
  have h := rebuilt_cross_bins_canonical accC1 srcC1 resC1 [([0, 1], 8), ([2, 3], 7)]
    rfl rfl rfl
  refine ⟨rfl, ?_, h.2⟩
  exact (h.1 { name := "", key := "0", ty := "default", indexes := [0, 1], count := 8 }
    (by decide)).1

/-! ## Structural guarantees at the coverpoint / cross level -/

theorem find?_cp_isSome_iff (l : List Coverpoint) (x : String) :
    (l.find? (fun c => c.name == x)).isSome = true ↔ x ∈ l.map (fun c => c.name) := by
  induction l with
  | nil => simp
  | cons c cs ih =>
    by_cases h : c.name = x
    · simp [List.find?, h]
    · have hb : (c.name == x) = false := by simpa using h
      simp [List.find?, hb, h, Ne.symm h, ih]

theorem find?_cross_isSome_iff (l : List Cross) (x : String) :
    (l.find? (fun c => c.name == x)).isSome = true ↔ x ∈ l.map (fun c => c.name) := by
  induction l with
  | nil => simp
  | cons c cs ih =>
    by_cases h : c.name = x
    · simp [List.find?, h]
    · have hb : (c.name == x) = false := by simpa using h
      simp [List.find?, hb, h, Ne.symm h, ih]

theorem merge_into_first_cp_names {srcCp : Coverpoint} :
    ∀ {cps cps' : List Coverpoint}, merge_into_first_cp srcCp cps = .ok cps' →
      cps'.map (fun c => c.name) = cps.map (fun c => c.name) := by
  intro cps
  induction cps with
  | nil =>
    intro cps' h
    rw [merge_into_first_cp] at h
    cases h
    rfl
  | cons c cs ih =>
    intro cps' h
    rw [merge_into_first_cp] at h
    by_cases hn : (c.name == srcCp.name) = true
    · rw [if_pos hn] at h
      cases hpb : parse_coverpoint_bins c.bins srcCp.bins with
      | error e => rw [hpb] at h; exact absurd h (by simp [Except.map])
      | ok bs =>
        rw [hpb] at h
        have h2 := Except.ok.inj h
        subst h2
        simp
    · rw [if_neg hn] at h
      cases hm : merge_into_first_cp srcCp cs with
      | error e => rw [hm] at h; exact absurd h (by simp [Except.map])
      | ok cs' =>
        rw [hm] at h
        have h2 := Except.ok.inj h
        subst h2
        simp [ih hm]

theorem parse_coverpoints_names :
    ∀ {src : List Coverpoint} {acc res : CgInstance},
      parse_coverpoints acc src = .ok res →
      res.coverpoints.map (fun c => c.name) = acc.coverpoints.map (fun c => c.name) := by
  intro src
  induction src with
  | nil =>
    intro acc res h
    rw [parse_coverpoints] at h
    cases h
    rfl
  | cons cp rest ih =>
    intro acc res h
    rw [parse_coverpoints] at h
    by_cases hf : (acc.coverpoints.find? (fun c => c.name == cp.name)).isSome = true
    · rw [if_pos hf] at h
      cases hm : merge_into_first_cp cp acc.coverpoints with
      | error e => rw [hm] at h; exact absurd h (by simp)
      | ok cps =>
        rw [hm] at h
        dsimp only at h
        rw [ih h]
        exact merge_into_first_cp_names hm
    · rw [if_neg hf] at h
      exact absurd h (by simp)

theorem parse_coverpoints_missing_cp_errors :
    ∀ {src : List Coverpoint} {acc : CgInstance},
      (∃ cp ∈ src, cp.name ∉ acc.coverpoints.map (fun c => c.name)) →
      excIsError (parse_coverpoints acc src) = true := by
  intro src
  induction src with
  | nil =>
    intro acc h
    rcases h with ⟨cp, hcp, _⟩
    simp at hcp
  | cons cp0 rest ih =>
    intro acc h
    rcases h with ⟨cp, hcp, hnot⟩
    rw [parse_coverpoints]
    by_cases hf : (acc.coverpoints.find? (fun c => c.name == cp0.name)).isSome = true
    · rw [if_pos hf]
      cases hm : merge_into_first_cp cp0 acc.coverpoints with
      | error e => rfl
      | ok cps =>
        dsimp only
        rcases List.mem_cons.mp hcp with rfl | hmem
        · rw [find?_cp_isSome_iff] at hf
          exact absurd hf hnot
        · refine ih ⟨cp, hmem, ?_⟩
          show cp.name ∉ cps.map (fun c => c.name)
          rw [merge_into_first_cp_names hm]
          exact hnot
    · rw [if_neg hf]
      rfl

/-- A successful cross merge keeps the cross's name. -/
theorem merge_cross_name {acc src res : Cross} (h : merge_cross acc src = .ok res) :
    res.name = acc.name := by
  by_cases hne : (crossBinsOf src).isEmpty = true
  · rw [merge_cross, if_pos hne] at h
    cases h
    rfl
  · have hne2 : (crossBinsOf src).isEmpty = false := by
      simpa using hne
    rw [merge_cross, hne2] at h
    simp only [Bool.false_eq_true, if_false] at h
    cases hd : drain_cross_bins (crossExprsOf acc).length [] (crossBinsOf acc) with
    | error e => rw [hd] at h; exact absurd h (by simp)
    | ok m0 =>
      rw [hd] at h
      dsimp only at h
      cases hr : rebuild_cross_bins (crossExprsOf acc).length
          (fold_src_bins m0 (crossBinsOf src)) with
      | error e => rw [hr] at h; exact absurd h (by simp)
      | ok bs =>
        rw [hr] at h
        dsimp only at h
        cases hu : removeFirstUserAttr
            (acc.children.filter (fun ch => !ch.isCBin) ++ bs.map CrossChild.cbin) with
        | none => rw [hu] at h; exact absurd h (by simp)
        | some cs =>
          rw [hu] at h
          dsimp only at h
          cases h
          rfl

theorem merge_into_first_cross_names {srcCross : Cross} :
    ∀ {crs crs' : List Cross}, merge_into_first_cross srcCross crs = .ok crs' →
      crs'.map (fun c => c.name) = crs.map (fun c => c.name) := by
  intro crs
  induction crs with
  | nil =>
    intro crs' h
    rw [merge_into_first_cross] at h
    cases h
    rfl
  | cons c cs ih =>
    intro crs' h
    rw [merge_into_first_cross] at h
    by_cases hn : (c.name == srcCross.name) = true
    · rw [if_pos hn] at h
      cases hmc : merge_cross c srcCross with
      | error e => rw [hmc] at h; exact absurd h (by simp [Except.map])
      | ok c' =>
        rw [hmc] at h
        have h2 := Except.ok.inj h
        subst h2
        simp [merge_cross_name hmc]
    · rw [if_neg hn] at h
      cases hm : merge_into_first_cross srcCross cs with
      | error e => rw [hm] at h; exact absurd h (by simp [Except.map])
      | ok cs' =>
        rw [hm] at h
        have h2 := Except.ok.inj h
        subst h2
        simp [ih hm]

theorem parse_crosses_names :
    ∀ {src : List Cross} {acc res : CgInstance},
      parse_crosses acc src = .ok res →
      res.crosses.map (fun c => c.name) = acc.crosses.map (fun c => c.name) := by
  intro src
  induction src with
  | nil =>
    intro acc res h
    rw [parse_crosses] at h
    cases h
    rfl
  | cons cr rest ih =>
    intro acc res h
    rw [parse_crosses] at h
    by_cases hf : (acc.crosses.find? (fun c => c.name == cr.name)).isSome = true
    · rw [if_pos hf] at h
      cases hm : merge_into_first_cross cr acc.crosses with
      | error e => rw [hm] at h; exact absurd h (by simp)
      | ok crs =>
        rw [hm] at h
        dsimp only at h
        rw [ih h]
        exact merge_into_first_cross_names hm
    · rw [if_neg hf] at h
      exact absurd h (by simp)

theorem parse_crosses_missing_cross_errors :
    ∀ {src : List Cross} {acc : CgInstance},
      (∃ cr ∈ src, cr.name ∉ acc.crosses.map (fun c => c.name)) →
      excIsError (parse_crosses acc src) = true := by
  intro src
  induction src with
  | nil =>
    intro acc h
    rcases h with ⟨cr, hcr, _⟩
    simp at hcr
  | cons cr0 rest ih =>
    intro acc h
    rcases h with ⟨cr, hcr, hnot⟩
    rw [parse_crosses]
    by_cases hf : (acc.crosses.find? (fun c => c.name == cr0.name)).isSome = true
    · rw [if_pos hf]
      cases hm : merge_into_first_cross cr0 acc.crosses with
      | error e => rfl
      | ok crs =>
        dsimp only
        rcases List.mem_cons.mp hcr with rfl | hmem
        · rw [find?_cross_isSome_iff] at hf
          exact absurd hf hnot
        · refine ih ⟨cr, hmem, ?_⟩
          show cr.name ∉ crs.map (fun c => c.name)
          rw [merge_into_first_cross_names hm]
          exact hnot
    · rw [if_neg hf]
      rfl

/-- C2: when the source document contains a coverpoint (resp. a cross)
whose name is absent from the matched accumulator instance, the merge of
that instance fails with a fatal error; and whenever the coverpoint (resp.
cross) walk succeeds, the accumulator's list of coverpoint (resp. cross)
names is unchanged — missing coverpoints and crosses are never inserted. -/
theorem missing_coverpoint_or_cross_is_fatal :
    (∀ (acc : CgInstance) (src : List Coverpoint),
      (∃ cp ∈ src, cp.name ∉ acc.coverpoints.map (fun c => c.name)) →
      excIsError (parse_coverpoints acc src) = true) ∧
    (∀ (acc : CgInstance) (src : List Coverpoint) (res : CgInstance),
      parse_coverpoints acc src = .ok res →
      res.coverpoints.map (fun c => c.name) = acc.coverpoints.map (fun c => c.name)) ∧
    (∀ (acc : CgInstance) (src : List Cross),
      (∃ cr ∈ src, cr.name ∉ acc.crosses.map (fun c => c.name)) →
      excIsError (parse_crosses acc src) = true) ∧
    (∀ (acc : CgInstance) (src : List Cross) (res : CgInstance),
      parse_crosses acc src = .ok res →
      res.crosses.map (fun c => c.name) = acc.crosses.map (fun c => c.name)) :=
  ⟨fun _ _ h => parse_coverpoints_missing_cp_errors h,
   fun _ _ _ h => parse_coverpoints_names h,
   fun _ _ h => parse_crosses_missing_cross_errors h,
   fun _ _ _ h => parse_crosses_names h⟩

/-- A coverpoint `cpA` with the single bin `binLoAcc`. -/
def cpA : Coverpoint := { name := "cpA", weight := some 1, bins := [binLoAcc] }

/-- A coverpoint named `cpB`, absent from the accumulator instance. -/
def cpB : Coverpoint := { name := "cpB", weight := some 1, bins := [binLoAcc] }

/-- An accumulator instance owning only `cpA`. -/
def instW : CgInstance :=
  { name := "i", weight := some 1, coverpoints := [cpA], crosses := [] }

/-- `instW` after merging `cpA` into itself. -/
def resW : CgInstance :=
  { name := "i", weight := some 1,
    coverpoints := [{ name := "cpA", weight := some 1,
                      bins := [{ name := "lo", ty := "default", aliasAttr := 2,
                                 ranges := [{ rfrom := "0", rto := "10", count := 2 }] }] }],
    crosses := [] }

/-- An accumulator instance owning only the cross `accC1` (named `XY`). -/
def instW2 : CgInstance :=
  { name := "i2", weight := some 1, coverpoints := [], crosses := [accC1] }

/-- A cross named `ZZ`, absent from the accumulator instance. -/
def crMissing : Cross :=
  { name := "ZZ", weight := some 1,
    children := [.crossExpr "x", .crossExpr "y", .userAttr] }

/-- A source cross named `XY` with no cross bins. -/
def srcC2crEmpty : Cross :=
  { name := "XY", weight := some 1,
    children := [.crossExpr "x", .crossExpr "y", .userAttr] }

/-- Witness for C2: a missing coverpoint name and a missing cross name each
abort the merge; a successful coverpoint walk and a successful cross walk
leave the name lists untouched. -/
theorem missing_coverpoint_or_cross_is_fatal_witness :
    excIsError (parse_coverpoints instW [cpB]) = true ∧
    parse_coverpoints instW [cpA] = .ok resW ∧
    resW.coverpoints.map (fun c => c.name) = instW.coverpoints.map (fun c => c.name) ∧
    excIsError (parse_crosses instW2 [crMissing]) = true ∧
    parse_crosses instW2 [srcC2crEmpty] = .ok instW2 ∧
    instW2.crosses.map (fun c => c.name) = instW2.crosses.map (fun c => c.name) := by
  refine ⟨?_, rfl, ?_, ?_, rfl, ?_⟩
  · exact missing_coverpoint_or_cross_is_fatal.1 instW [cpB] (by decide)
  · exact missing_coverpoint_or_cross_is_fatal.2.1 instW [cpA] resW rfl
  · exact missing_coverpoint_or_cross_is_fatal.2.2.1 instW2 [crMissing] (by decide)
  · exact missing_coverpoint_or_cross_is_fatal.2.2.2 instW2 [srcC2crEmpty] instW2 rfl

/-! ## The alias attribute (C6) -/

theorem merge_bin_hits_go_sync :
    ∀ {rgs : List CtRange} {b res : CovBin}, merge_bin_hits_go b rgs = .ok res →
      res = b ∨ res.ranges.head?.map (fun r => r.count) = some res.aliasAttr := by
  intro rgs
  induction rgs with
  | nil =>
    intro b res h
    rw [merge_bin_hits_go] at h
    cases h
    exact Or.inl rfl
  | cons rg rest ih =>
    intro b res h
    rw [merge_bin_hits_go] at h
    split at h
    · cases h
    · split at h
      · rcases ih h with rfl | hp
        · exact Or.inr rfl
        · exact Or.inr hp
      · cases h

/-- C6: after every successful bin merge the bin's `alias` attribute equals
the `coverageCount` of the range the merge updated (the accumulator bin's
first range): the two fields are written together and never diverge. -/
theorem bin_alias_equals_first_range_count
    (srcBin accBin res : CovBin) (hok : merge_bin_hits srcBin accBin = .ok res) :
    res.ranges.head?.map (fun r => r.count) = some res.aliasAttr := by
  rw [merge_bin_hits] at hok
  split at hok
  · cases hok
  · rcases hsr : srcBin.ranges with _ | ⟨rg, rest⟩
    · rw [hsr] at hok
      rw [merge_bin_hits_go] at hok
      cases hok
      next hne => rw [hsr] at hne; simp at hne
    · rw [hsr] at hok
      rw [merge_bin_hits_go] at hok
      split at hok
      · cases hok
      · split at hok
        · rcases merge_bin_hits_go_sync hok with rfl | hp
          · rfl
          · exact hp
        · cases hok

/-- The merged bin of `binLoSrc` into `binLoAcc`. -/
def resLo : CovBin :=
  { name := "lo", ty := "default", aliasAttr := 3,
    ranges := [{ rfrom := "0", rto := "10", count := 3 }] }

/-- Witness for C6: in the concrete merged bin the alias (3) equals the
first range's coverage count (3). -/
theorem bin_alias_equals_first_range_count_witness :
    merge_bin_hits binLoSrc binLoAcc = .ok resLo ∧
    resLo.ranges.head?.map (fun r => r.count) = some resLo.aliasAttr :=
  ⟨rfl, bin_alias_equals_first_range_count binLoSrc binLoAcc resLo rfl⟩

/-! ## Report builder (`get_covergroup_report_data` and helpers)

Read-only path used by C8.  Percentages are modelled over `ℚ`; the worked
values of the claim (50, 100, 87.5) are exact in the script's binary
floating point as well. -/

/-- One entry of `cg_data['inst_data']`: the fields the script computes for
a coverpoint or a cross. -/
structure EntryReport where
  weight : Int
  bin_count : Nat
  bin_hits : Nat
  bin_misses : Nat
  hits : List String
  misses : List String
  pct_cov : ℚ
deriving DecidableEq

/-- The per-instance report (`cg_data`). -/
structure CgData where
  weight : Int
  inst_data : List (String × EntryReport)
  pct_cov : ℚ
deriving DecidableEq

/-- `int(options.get('weight'))`: `TypeError` when the attribute is
absent. -/
def getWeight : Option Int → Except String Int
  | none => .error "TypeError: int() argument must not be None"
  | some w => .ok w

/-- `cg_cp_bin_map`: coverpoint (or cross) name ↦ bin names in declared
order (the python value is the dict `{bin_idx: bin_name}` whose keys are
`0..n-1`). -/
abbrev CpBinMap := List (String × List String)

/-- `get_coverpoint_report_data` body for one coverpoint. -/
def cp_report_entry (cp : Coverpoint) : Except String EntryReport :=
  match getWeight cp.weight with
  | .error e => .error e
  | .ok w =>
    let bin_count := cp.bins.length
    let hits := (cp.bins.filter (fun b => decide (0 < b.aliasAttr))).map (fun b => b.name)
    let misses := (cp.bins.filter (fun b => !(decide (0 < b.aliasAttr)))).map (fun b => b.name)
    if bin_count = 0 then .error "ZeroDivisionError: float division by zero"
    else
      .ok { weight := w, bin_count := bin_count, bin_hits := hits.length,
            bin_misses := misses.length, hits := hits, misses := misses,
            pct_cov := 100 * (((bin_count : ℚ) - (misses.length : ℚ)) / (bin_count : ℚ)) }

/-- `collect_cross_bins`: Cartesian product of the bin-index ranges of the
crossed coverpoints, in the script's nesting order.  `exprs = []` indexes
`exprs[0]` out of range; an expression name missing from `cg_cp_bin_map`
raises `KeyError`. -/
def collect_cross_bins (binMap : CpBinMap) :
    List String → List (List Nat) → Except String (List (List Nat))
  | [], _ => .error "IndexError: list index out of range"
  | e :: rest, parrent_bins =>
    match aGet? binMap e with
    | none => .error "KeyError"
    | some binNames =>
      let new_bins := parrent_bins.flatMap
        (fun t => (List.range binNames.length).map (fun i => t ++ [i]))
      if rest.isEmpty then .ok new_bins
      else collect_cross_bins binMap rest new_bins

/-- The per-index loop of `get_cross_bin_name_from_tuple`: `exprs[expr_idx]`
(IndexError when out of range), then the bin name under that expression's
entry of `cg_cp_bin_map` (`KeyError` when the index is not a key). -/
def name_from_tuple_go (binMap : CpBinMap) (exprs : List String) :
    Nat → List Int → Except String (List String)
  | _, [] => .ok []
  | i, idx :: rest =>
    match exprs.get? i with
    | none => .error "IndexError: list index out of range"
    | some ename =>
      match aGet? binMap ename with
      | none => .error "KeyError"
      | some binNames =>
        if idx < 0 then .error "KeyError"
        else
          match binNames.get? idx.toNat with
          | none => .error "KeyError"
          | some nm =>
            match name_from_tuple_go binMap exprs (i + 1) rest with
            | .error e => .error e
            | .ok nms => .ok (nm :: nms)

/-- `get_cross_bin_name_from_tuple`: per-dimension bin names, reversed and
joined with " : ". -/
def get_cross_bin_name_from_tuple (binMap : CpBinMap) (exprs : List String)
    (t : List Int) : Except String String :=
  (name_from_tuple_go binMap exprs 0 t).map
    (fun names => String.intercalate " : " names.reverse)

/-- `bin_hits = {}; for cbin in all_cross_bins: bin_hits[cbin] = 0`. -/
def init_bin_hits (ts : List (List Nat)) : BinMap :=
  ts.foldl (fun m t => aSet m (t.map (fun i => (i : Int))) 0) []

/-- The hit/miss classification loop over `bin_hits.items()`. -/
def cross_hits_misses (binMap : CpBinMap) (exprs : List String) :
    List (List Int × Int) → Except String (Nat × Nat × List String × List String)
  | [] => .ok (0, 0, [], [])
  | (t, h) :: rest =>
    match get_cross_bin_name_from_tuple binMap exprs t with
    | .error e => .error e
    | .ok nm =>
      match cross_hits_misses binMap exprs rest with
      | .error e => .error e
      | .ok (bh, bm, hs, ms) =>
        if 0 < h then .ok (bh + 1, bm, nm :: hs, ms)
        else .ok (bh, bm + 1, hs, nm :: ms)

/-- `get_cross_report_data` body for one cross: weight, the full Cartesian
space, `bin_hits` seeded at zero and overwritten from the document's
`crossBin` elements, hits/misses and the percentage.  Returns the report
entry together with the updated `cg_cp_bin_map`. -/
def cross_report_entry (binMap : CpBinMap) (cr : Cross) :
    Except String (CpBinMap × EntryReport) :=
  match getWeight cr.weight with
  | .error e => .error e
  | .ok w =>
    let binMap1 := aSet binMap cr.name []
    let exprs := crossExprsOf cr
    match collect_cross_bins binMap1 exprs [[]] with
    | .error e => .error e
    | .ok all_cross_bins =>
      let bin_count := all_cross_bins.length
      let m0 := init_bin_hits all_cross_bins
      let cbs := crossBinsOf cr
      let binMap2 := aSet binMap1 cr.name (cbs.map (fun b => b.name))
      let m1 := cbs.foldl (fun m cb => aSet m cb.indexes cb.count) m0
      match cross_hits_misses binMap2 exprs m1 with
      | .error e => .error e
      | .ok (bh, bm, hs, ms) =>
        if bin_count = 0 then .error "ZeroDivisionError: float division by zero"
        else
          .ok (binMap2,
               { weight := w, bin_count := bin_count, bin_hits := bh,
                 bin_misses := bm, hits := hs, misses := ms,
                 pct_cov := 100 * (((bin_count : ℚ) - (bm : ℚ)) / (bin_count : ℚ)) })

/-- The coverpoint loop of `get_covergroup_report_data`: build the report
entries and `cg_cp_bin_map`. -/
def cp_entries_go (binMap : CpBinMap) (acc : List (String × EntryReport)) :
    List Coverpoint → Except String (CpBinMap × List (String × EntryReport))
  | [] => .ok (binMap, acc)
  | cp :: rest =>
    match cp_report_entry cp with
    | .error e => .error e
    | .ok e =>
      cp_entries_go (aSet binMap cp.name (cp.bins.map (fun b => b.name)))
        (aSet acc cp.name e) rest

/-- The cross loop of `get_covergroup_report_data`. -/
def cross_entries_go (binMap : CpBinMap) (acc : List (String × EntryReport)) :
    List Cross → Except String (List (String × EntryReport))
  | [] => .ok acc
  | cr :: rest =>
    match cross_report_entry binMap cr with
    | .error e => .error e
    | .ok (binMap2, e) => cross_entries_go binMap2 (aSet acc cr.name e) rest

/-- `get_covergroup_report_data` restricted to one `cgInstance`: the
instance weight, all coverpoint and cross entries, and the roll-up
percentage `sum(pct*weight) / float(sum(weight))`. -/
def get_covergroup_report_data_inst (cg : CgInstance) : Except String CgData :=
  match getWeight cg.weight with
  | .error e => .error e
  | .ok w =>
    match cp_entries_go [] [] cg.coverpoints with
    | .error e => .error e
    | .ok (binMap, cpes) =>
      match cross_entries_go binMap cpes cg.crosses with
      | .error e => .error e
      | .ok entries =>
        if (entries.map (fun e => e.2.weight)).sum = 0 then
          .error "ZeroDivisionError: float division by zero"
        else
          .ok { weight := w, inst_data := entries,
                pct_cov := (entries.map (fun e => e.2.pct_cov * (e.2.weight : ℚ))).sum /
                  (((entries.map (fun e => e.2.weight)).sum : Int) : ℚ) }

/-- C8: whenever the report builder succeeds on an instance, the instance's
percentage-covered is the weighted average of its coverpoints' and crosses'
percentages: the sum of each entry's percentage times its weight, divided
by the sum of the weights. -/
theorem instance_pct_is_weighted_average (cg : CgInstance) (d : CgData)
    (h : get_covergroup_report_data_inst cg = .ok d) :
    d.pct_cov = (d.inst_data.map (fun e => e.2.pct_cov * (e.2.weight : ℚ))).sum /
      (((d.inst_data.map (fun e => e.2.weight)).sum : Int) : ℚ) := by
  rw [get_covergroup_report_data_inst] at h
  cases hw : getWeight cg.weight with
  | error e => rw [hw] at h; exact absurd h (by simp)
  | ok w =>
    rw [hw] at h
    dsimp only at h
    cases hcp : cp_entries_go [] [] cg.coverpoints with
    | error e => rw [hcp] at h; exact absurd h (by simp)
    | ok pr =>
      rw [hcp] at h
      rcases pr with ⟨binMap, cpes⟩
      dsimp only at h
      cases hcr : cross_entries_go binMap cpes cg.crosses with
      | error e => rw [hcr] at h; exact absurd h (by simp)
      | ok entries =>
        rw [hcr] at h
        dsimp only at h
        by_cases hz : (entries.map (fun e => e.2.weight)).sum = 0
        · rw [if_pos hz] at h
          exact absurd h (by simp)
        · rw [if_neg hz] at h
          cases h
          rfl

/-- The first coverpoint of the worked example: weight 1, two bins, one
miss — 50 % covered. -/
def cp50 : Coverpoint :=
  { name := "cp1", weight := some 1,
    bins := [{ name := "b0", ty := "default", aliasAttr := 0,
               ranges := [{ rfrom := "0", rto := "1", count := 0 }] },
             { name := "b1", ty := "default", aliasAttr := 7,
               ranges := [{ rfrom := "2", rto := "3", count := 7 }] }] }

/-- The second coverpoint of the worked example: weight 3, one bin, fully
hit — 100 % covered. -/
def cp100 : Coverpoint :=
  { name := "cp2", weight := some 3,
    bins := [{ name := "c0", ty := "default", aliasAttr := 2,
               ranges := [{ rfrom := "0", rto := "9", count := 2 }] }] }

/-- The worked-example instance: coverpoints of weights 1 and 3 at 50 % and
100 %. -/
def cgC8 : CgInstance :=
  { name := "cg", weight := some 1, coverpoints := [cp50, cp100], crosses := [] }

/-- The report the script computes for `cgC8`. -/
def dC8 : CgData :=
  { weight := 1,
    inst_data :=
      [("cp1", { weight := 1, bin_count := 2, bin_hits := 1, bin_misses := 1,
                 hits := ["b1"], misses := ["b0"], pct_cov := 50 }),
       ("cp2", { weight := 3, bin_count := 1, bin_hits := 1, bin_misses := 0,
                 hits := ["c0"], misses := [], pct_cov := 100 })],
    pct_cov := 175 / 2 }

/-- Witness for C8: the instance with coverpoint weights 1 and 3 and
percentages 50 % and 100 % rolls up to `(1*50 + 3*100)/4 = 87.5 %`. -/
theorem instance_pct_is_weighted_average_witness :
    get_covergroup_report_data_inst cgC8 = .ok dC8 ∧
    dC8.pct_cov = (dC8.inst_data.map (fun e => e.2.pct_cov * (e.2.weight : ℚ))).sum /
      (((dC8.inst_data.map (fun e => e.2.weight)).sum : Int) : ℚ) ∧
    dC8.pct_cov = 175 / 2 := by
  have hok : get_covergroup_report_data_inst cgC8 = .ok dC8 := by
    norm_num +decide [get_covergroup_report_data_inst, getWeight, cp_entries_go, cp_report_entry,
      cross_entries_go, aSet, aHasKey, aGet?, cgC8, cp50, cp100, dC8]
  exact ⟨hok, instance_pct_is_weighted_average cgC8 dC8 hok, rfl⟩

end MergePy
